import Mathlib

/-!
Verification of the swap-eligibility engine of the `go-scheduler` repository
(Go sources: the game-swap finder).  The Go program is embedded shallowly:

* `normalize` / `addUnique` embed the team-name normalizer `addUnique`
  (truncate at the first `" ("`, upper-case, append if not already present
  case-insensitively);
* `Re` together with `reContains` embeds the subset of Go `regexp`
  (RE2) used by the division table: literal characters, `.` (any character
  except newline), `*`, alternation and character ranges, with
  `MatchString`'s unanchored-search semantics;
* `parseDate` / `dayNumber` / `midnight` embed `time.Parse("2006-01-02", s)`
  and the instant comparison `gameDate.Before(cutOffDate)`, with time
  instants modelled as integer seconds and a parsed date sitting at its
  midnight;
* `divisions`, `selectDivision`, `candidateUniverse`, `buildExcl`,
  `finalFilter`, `resolveCore` and `run` embed the `main` pipeline of the
  latest program revision: locate the target by game id, select the division
  by the first matching `nameRegex` (falling back to the last table entry,
  exactly as the Go `for _, division = range divisions` loop does), check
  the cutoff, filter the schedule by date and `swapsRegex`, build the
  exclusion lists from the filtered list, and filter again.

Rows are CSV records, modelled as `List String`; field access `game[i]`
is `getF`, total with default `""` (faithful to Go wherever the index is
in bounds, which the relevant theorems assume where it matters).
-/

namespace GoSched

/-! ### Name normalization (Go `addUnique`: `strings.Cut(str, " (")` then `strings.ToUpper`) -/

/-- ASCII upper-casing of one character, as Go `strings.ToUpper` acts on
the ASCII range (team names in the schedule are ASCII). -/
def upChar (c : Char) : Char :=
  if 97 ≤ c.toNat ∧ c.toNat ≤ 122 then Char.ofNat (c.toNat - 32) else c

/-- The part of the string before the first occurrence of the substring
`" ("`: Go `before, _, _ := strings.Cut(str, " (")`. -/
def cutBefore : List Char → List Char
  | [] => []
  | c :: rest =>
    if c = ' ' ∧ rest.head? = some '(' then []
    else c :: cutBefore rest

/-- Does the character list contain the separator `" ("`? -/
def hasSep : List Char → Bool
  | [] => false
  | c :: rest => decide (c = ' ' ∧ rest.head? = some '(') || hasSep rest

/-- `normalize raw`: truncate at the first `" ("` and upper-case — the
canonical team name of the schedule data (the body of Go `addUnique`
before its membership scan). -/
def normalize (s : String) : String :=
  ⟨(cutBefore s.data).map upChar⟩

/-- Go `strings.ToUpper`. -/
def upperStr (s : String) : String :=
  ⟨s.data.map upChar⟩

/-- Go `addUnique(list, str)`: append the normalized string unless an entry
equal to it up to upper-casing is already present. -/
def addUnique (list : List String) (str : String) : List String :=
  if list.any (fun v => upperStr v == normalize str) then list
  else list ++ [normalize str]

theorem toNat_ofNat_valid (n : Nat) (h : Nat.isValidChar n) : (Char.ofNat n).toNat = n := by
  unfold Char.ofNat
  rw [dif_pos h]
  unfold Char.ofNatAux Char.toNat
  simp [UInt32.toNat, UInt32.ofNatCore]

theorem char_eq_of_toNat {c d : Char} (h : c.toNat = d.toNat) : c = d :=
  Char.ext (UInt32.ext h)

theorem upChar_toNat (c : Char) :
    (upChar c).toNat = if 97 ≤ c.toNat ∧ c.toNat ≤ 122 then c.toNat - 32 else c.toNat := by
  unfold upChar
  by_cases h : 97 ≤ c.toNat ∧ c.toNat ≤ 122
  · rw [if_pos h, if_pos h]
    exact toNat_ofNat_valid _ (Or.inl (by omega))
  · rw [if_neg h, if_neg h]

theorem upChar_idem (c : Char) : upChar (upChar c) = upChar c := by
  have h1 := upChar_toNat c
  have h2 := upChar_toNat (upChar c)
  apply char_eq_of_toNat
  by_cases h : 97 ≤ c.toNat ∧ c.toNat ≤ 122
  · rw [if_pos h] at h1
    rw [h2, h1, if_neg (by omega)]
  · rw [if_neg h] at h1
    rw [h2, h1, if_neg h]

theorem upChar_eq_space {c : Char} (h : upChar c = ' ') : c = ' ' := by
  have h1 := upChar_toNat c
  rw [h] at h1
  by_cases hc : 97 ≤ c.toNat ∧ c.toNat ≤ 122
  · rw [if_pos hc] at h1
    simp only [show (' ' : Char).toNat = 32 from rfl] at h1
    omega
  · rw [if_neg hc] at h1
    exact char_eq_of_toNat h1.symm

theorem upChar_eq_paren {c : Char} (h : upChar c = '(') : c = '(' := by
  have h1 := upChar_toNat c
  rw [h] at h1
  by_cases hc : 97 ≤ c.toNat ∧ c.toNat ≤ 122
  · rw [if_pos hc] at h1
    simp only [show ('(' : Char).toNat = 40 from rfl] at h1
    omega
  · rw [if_neg hc] at h1
    exact char_eq_of_toNat h1.symm

theorem head?_cutBefore {l : List Char} {d : Char} (h : (cutBefore l).head? = some d) :
    l.head? = some d := by
  cases l with
  | nil => simp [cutBefore] at h
  | cons c rest =>
    unfold cutBefore at h
    split at h
    · simp at h
    · simpa using h

theorem hasSep_cutBefore (l : List Char) : hasSep (cutBefore l) = false := by
  induction l with
  | nil => rfl
  | cons c rest ih =>
    unfold cutBefore
    split
    · rfl
    · next hcond =>
      unfold hasSep
      simp only [Bool.or_eq_false_iff, decide_eq_false_iff_not]
      refine ⟨fun hc => hcond ⟨hc.1, head?_cutBefore hc.2⟩, ih⟩

theorem cutBefore_of_noSep {l : List Char} (h : hasSep l = false) : cutBefore l = l := by
  induction l with
  | nil => rfl
  | cons c rest ih =>
    unfold hasSep at h
    simp only [Bool.or_eq_false_iff, decide_eq_false_iff_not] at h
    unfold cutBefore
    rw [if_neg h.1, ih h.2]

theorem hasSep_map_upChar {l : List Char} (h : hasSep l = false) :
    hasSep (l.map upChar) = false := by
  induction l with
  | nil => rfl
  | cons c rest ih =>
    unfold hasSep at h
    simp only [Bool.or_eq_false_iff, decide_eq_false_iff_not] at h
    unfold hasSep
    simp only [List.map_cons, Bool.or_eq_false_iff, decide_eq_false_iff_not]
    refine ⟨fun hc => ?_, ih h.2⟩
    apply h.1
    refine ⟨upChar_eq_space hc.1, ?_⟩
    rcases hrest : rest with _ | ⟨d, ds⟩
    · rw [hrest] at hc
      simp at hc
    · rw [hrest] at hc
      simp only [List.map_cons, List.head?_cons, Option.some.injEq] at hc
      simp only [List.head?_cons, Option.some.injEq]
      exact upChar_eq_paren hc.2

/-- Normalization is idempotent (core of §8's first testable property). -/
theorem normalize_idem (s : String) : normalize (normalize s) = normalize s := by
  unfold normalize
  apply congrArg String.mk
  have h1 : hasSep ((cutBefore s.data).map upChar) = false :=
    hasSep_map_upChar (hasSep_cutBefore s.data)
  rw [show (String.mk ((cutBefore s.data).map upChar)).data
        = (cutBefore s.data).map upChar from rfl]
  rw [cutBefore_of_noSep h1, List.map_map]
  apply List.map_congr_left
  intro c _
  exact upChar_idem c

/-! ### Regular expressions (the subset of Go `regexp`/RE2 used by the division table)

The division patterns use only: literal characters, `.` (any character
except newline), `*` applied to `.`, alternation `|`, and character ranges
`[X-Y]`.  `MatchString` is unanchored search. -/

inductive Re where
  | emp : Re
  | eps : Re
  | chr : Char → Re
  | rng : Char → Char → Re
  | dot : Re
  | seq : Re → Re → Re
  | alt : Re → Re → Re
  | star : Re → Re
deriving DecidableEq, Repr

/-- Words of the Kleene closure of a predicate on words. -/
inductive KStar (P : List Char → Prop) : List Char → Prop
  | nil : KStar P []
  | cons {u v : List Char} : P u → KStar P v → KStar P (u ++ v)

/-- The language of a regular expression (RE2 semantics; `dot` excludes
the newline character). -/
def Accepts : Re → List Char → Prop
  | .emp, _ => False
  | .eps, s => s = []
  | .chr c, s => s = [c]
  | .rng lo hi, s => ∃ c, s = [c] ∧ lo.toNat ≤ c.toNat ∧ c.toNat ≤ hi.toNat
  | .dot, s => ∃ c, s = [c] ∧ c ≠ '\n'
  | .seq r1 r2, s => ∃ u v, s = u ++ v ∧ Accepts r1 u ∧ Accepts r2 v
  | .alt r1 r2, s => Accepts r1 s ∨ Accepts r2 s
  | .star r, s => KStar (Accepts r) s

/-- Does the expression accept the empty word? -/
def nullable : Re → Bool
  | .emp => false
  | .eps => true
  | .chr _ => false
  | .rng _ _ => false
  | .dot => false
  | .seq r1 r2 => nullable r1 && nullable r2
  | .alt r1 r2 => nullable r1 || nullable r2
  | .star _ => true

/-- Smart sequencing (keeps derivative terms small). -/
def mkSeq : Re → Re → Re
  | .emp, _ => .emp
  | _, .emp => .emp
  | .eps, r => r
  | r, .eps => r
  | r1, r2 => .seq r1 r2

/-- Smart alternation (keeps derivative terms small). -/
def mkAlt : Re → Re → Re
  | .emp, r => r
  | r, .emp => r
  | r1, r2 => .alt r1 r2

/-- Brzozowski derivative. -/
def deriv : Re → Char → Re
  | .emp, _ => .emp
  | .eps, _ => .emp
  | .chr c', c => if c = c' then .eps else .emp
  | .rng lo hi, c => if lo.toNat ≤ c.toNat ∧ c.toNat ≤ hi.toNat then .eps else .emp
  | .dot, c => if c = '\n' then .emp else .eps
  | .seq r1 r2, c =>
    if nullable r1 then mkAlt (mkSeq (deriv r1 c) r2) (deriv r2 c)
    else mkSeq (deriv r1 c) r2
  | .alt r1 r2, c => mkAlt (deriv r1 c) (deriv r2 c)
  | .star r, c => mkSeq (deriv r c) (.star r)

/-- Anchored (whole-word) matching via derivatives. -/
def rmatch (r : Re) (s : List Char) : Bool :=
  nullable (s.foldl (fun t c => deriv t c) r)

/-- Matches any single character (newline included). -/
def anyc : Re := Re.alt Re.dot (Re.chr '\n')

/-- Go `regexp.MatchString(pat, s)` / `re.MatchString(s)`: unanchored
search for a match of `r` anywhere inside `s`. -/
def reContains (r : Re) (s : String) : Bool :=
  rmatch (Re.seq (Re.star anyc) (Re.seq r (Re.star anyc))) s.data

theorem accepts_seq_nil {r1 r2 : Re} :
    Accepts (.seq r1 r2) [] ↔ Accepts r1 [] ∧ Accepts r2 [] := by
  constructor
  · rintro ⟨u, v, huv, h1, h2⟩
    rcases List.append_eq_nil.mp huv.symm with ⟨hu, hv⟩
    subst hu
    subst hv
    exact ⟨h1, h2⟩
  · rintro ⟨h1, h2⟩
    exact ⟨[], [], rfl, h1, h2⟩

theorem nullable_iff (r : Re) : nullable r = true ↔ Accepts r [] := by
  induction r with
  | emp => simp [nullable, Accepts]
  | eps => simp [nullable, Accepts]
  | chr c => simp [nullable, Accepts]
  | rng lo hi => simp [nullable, Accepts]
  | dot => simp [nullable, Accepts]
  | seq r1 r2 ih1 ih2 =>
    simp only [nullable, Bool.and_eq_true, ih1, ih2, accepts_seq_nil]
  | alt r1 r2 ih1 ih2 =>
    simp only [nullable, Bool.or_eq_true, ih1, ih2]
    rfl
  | star r _ =>
    simp only [nullable, true_iff]
    exact KStar.nil

theorem seq_emp_left (r : Re) (t : List Char) :
    Accepts (.seq .emp r) t ↔ Accepts .emp t := by
  constructor
  · rintro ⟨u, v, _, h1, _⟩
    exact h1
  · intro h
    exact h.elim

theorem seq_emp_right (r : Re) (t : List Char) :
    Accepts (.seq r .emp) t ↔ Accepts .emp t := by
  constructor
  · rintro ⟨u, v, _, _, h2⟩
    exact h2
  · intro h
    exact h.elim

theorem seq_eps_left (r : Re) (t : List Char) :
    Accepts (.seq .eps r) t ↔ Accepts r t := by
  constructor
  · rintro ⟨u, v, huv, h1, h2⟩
    simp only [Accepts] at h1
    subst h1
    simpa [huv]
  · intro h
    exact ⟨[], t, rfl, rfl, h⟩

theorem seq_eps_right (r : Re) (t : List Char) :
    Accepts (.seq r .eps) t ↔ Accepts r t := by
  constructor
  · rintro ⟨u, v, huv, h1, h2⟩
    simp only [Accepts] at h2
    subst h2
    simpa [huv] using h1
  · intro h
    exact ⟨t, [], by simp, h, rfl⟩

theorem alt_emp_left (r : Re) (t : List Char) :
    Accepts (.alt .emp r) t ↔ Accepts r t := by
  constructor
  · rintro (h | h)
    · exact h.elim
    · exact h
  · intro h
    exact Or.inr h

theorem alt_emp_right (r : Re) (t : List Char) :
    Accepts (.alt r .emp) t ↔ Accepts r t := by
  constructor
  · rintro (h | h)
    · exact h
    · exact h.elim
  · intro h
    exact Or.inl h

theorem accepts_mkSeq (r1 r2 : Re) (s : List Char) :
    Accepts (mkSeq r1 r2) s ↔ Accepts (.seq r1 r2) s := by
  cases r1 <;> cases r2 <;>
    simp only [mkSeq] <;>
    first
      | exact Iff.rfl
      | exact (seq_emp_left _ _).symm
      | exact (seq_emp_right _ _).symm
      | exact (seq_eps_left _ _).symm
      | exact (seq_eps_right _ _).symm

theorem accepts_mkAlt (r1 r2 : Re) (s : List Char) :
    Accepts (mkAlt r1 r2) s ↔ Accepts (.alt r1 r2) s := by
  cases r1 <;> cases r2 <;>
    simp only [mkAlt] <;>
    first
      | exact Iff.rfl
      | exact (alt_emp_left _ _).symm
      | exact (alt_emp_right _ _).symm

theorem kstar_cons {P : List Char → Prop} {w : List Char} (h : KStar P w) :
    ∀ c s, w = c :: s → ∃ u v, s = u ++ v ∧ P (c :: u) ∧ KStar P v := by
  induction h with
  | nil => intro c s h; cases h
  | cons hu hv ih =>
    intro c s hcs
    rename_i u v
    cases u with
    | nil => exact ih c s hcs
    | cons d ds =>
      simp only [List.cons_append] at hcs
      injection hcs with h1 h2
      subst h1
      exact ⟨ds, v, h2.symm, hu, hv⟩

theorem deriv_iff (r : Re) (c : Char) (s : List Char) :
    Accepts (deriv r c) s ↔ Accepts r (c :: s) := by
  induction r generalizing s with
  | emp => simp [deriv, Accepts]
  | eps => simp [deriv, Accepts]
  | chr c' =>
    simp only [deriv]
    by_cases h : c = c'
    · subst h
      simp [Accepts]
    · rw [if_neg h]
      simp only [Accepts, false_iff]
      intro hh
      injection hh with h1 _
      exact h h1
  | rng lo hi =>
    simp only [deriv]
    by_cases h : lo.toNat ≤ c.toNat ∧ c.toNat ≤ hi.toNat
    · rw [if_pos h]
      simp only [Accepts]
      constructor
      · intro hs
        exact ⟨c, by rw [hs], h.1, h.2⟩
      · rintro ⟨d, hd, h1, h2⟩
        injection hd
    · rw [if_neg h]
      simp only [Accepts, false_iff]
      rintro ⟨d, hd, h1, h2⟩
      injection hd with hd1 hd2
      subst hd1
      exact h ⟨h1, h2⟩
  | dot =>
    simp only [deriv]
    by_cases h : c = '\n'
    · rw [if_pos h]
      simp only [Accepts, false_iff]
      rintro ⟨d, hd, hne⟩
      injection hd with hd1 _
      exact hne (hd1 ▸ h)
    · rw [if_neg h]
      simp only [Accepts]
      constructor
      · intro hs
        exact ⟨c, by rw [hs], h⟩
      · rintro ⟨d, hd, _⟩
        injection hd
  | seq r1 r2 ih1 ih2 =>
    simp only [deriv]
    by_cases h : nullable r1 = true
    · rw [if_pos h]
      rw [accepts_mkAlt]
      simp only [Accepts, accepts_mkSeq]
      constructor
      · rintro (⟨u, v, huv, h1, h2⟩ | h2)
        · exact ⟨c :: u, v, by rw [huv]; rfl, (ih1 u).mp h1, h2⟩
        · exact ⟨[], c :: s, rfl, (nullable_iff r1).mp h, (ih2 s).mp h2⟩
      · rintro ⟨u, v, huv, h1, h2⟩
        cases u with
        | nil =>
          right
          simp only [List.nil_append] at huv
          exact (ih2 s).mpr (huv ▸ h2)
        | cons d ds =>
          left
          simp only [List.cons_append] at huv
          injection huv with hd hrest
          subst hd
          exact ⟨ds, v, hrest, (ih1 ds).mpr h1, h2⟩
    · rw [if_neg h]
      rw [accepts_mkSeq]
      simp only [Accepts]
      constructor
      · rintro ⟨u, v, huv, h1, h2⟩
        exact ⟨c :: u, v, by rw [huv]; rfl, (ih1 u).mp h1, h2⟩
      · rintro ⟨u, v, huv, h1, h2⟩
        cases u with
        | nil =>
          simp only [List.nil_append] at huv
          exact absurd ((nullable_iff r1).mpr h1) (by simpa using h)
        | cons d ds =>
          simp only [List.cons_append] at huv
          injection huv with hd hrest
          subst hd
          exact ⟨ds, v, hrest, (ih1 ds).mpr h1, h2⟩
  | alt r1 r2 ih1 ih2 =>
    simp only [deriv]
    rw [accepts_mkAlt]
    simp only [Accepts, ih1, ih2]
  | star r ih =>
    simp only [deriv]
    rw [accepts_mkSeq]
    simp only [Accepts]
    constructor
    · rintro ⟨u, v, huv, h1, h2⟩
      have : (c :: u) ++ v = c :: s := by rw [huv]; rfl
      exact this ▸ KStar.cons ((ih u).mp h1) h2
    · intro h
      rcases kstar_cons h c s rfl with ⟨u, v, huv, h1, h2⟩
      exact ⟨u, v, huv, (ih u).mpr h1, h2⟩

theorem rmatch_iff (r : Re) (s : List Char) : rmatch r s = true ↔ Accepts r s := by
  induction s generalizing r with
  | nil => exact nullable_iff r
  | cons c cs ih =>
    show rmatch (deriv r c) cs = true ↔ _
    rw [ih (deriv r c), deriv_iff]

theorem accepts_star_anyc (u : List Char) : Accepts (Re.star anyc) u := by
  induction u with
  | nil => exact KStar.nil
  | cons c cs ih =>
    have h1 : Accepts anyc [c] := by
      by_cases h : c = '\n'
      · right
        simpa [Accepts] using h
      · left
        exact ⟨c, rfl, h⟩
    have : [c] ++ cs = c :: cs := rfl
    exact this ▸ KStar.cons h1 ih

theorem reContains_iff (r : Re) (s : String) :
    reContains r s = true ↔ ∃ u v w, s.data = u ++ v ++ w ∧ Accepts r v := by
  unfold reContains
  rw [rmatch_iff]
  constructor
  · rintro ⟨u, rest, hsplit, _, v, w, hrest, hv, _⟩
    exact ⟨u, v, w, by rw [hsplit, hrest, List.append_assoc], hv⟩
  · rintro ⟨u, v, w, hsplit, hv⟩
    exact ⟨u, v ++ w, by rw [hsplit, List.append_assoc], accepts_star_anyc u,
      v, w, rfl, hv, accepts_star_anyc w⟩

theorem reContains_mono {r1 r2 : Re} (h : ∀ w, Accepts r1 w → Accepts r2 w)
    (s : String) (hc : reContains r1 s = true) : reContains r2 s = true := by
  rw [reContains_iff] at hc ⊢
  rcases hc with ⟨u, v, w, hsplit, hv⟩
  exact ⟨u, v, w, hsplit, h v hv⟩

/-! ### Dates (Go `time.Parse("2006-01-02", s)` and `Time.Before`)

`time.Parse` with the fixed layout `2006-01-02` accepts exactly strings of
the form `DDDD-DD-DD` (four-digit year, two-digit month and day, `-`
separators, nothing else), with month in 1..12 and day in 1..daysInMonth.
The parsed value is the date's midnight (UTC); `Before` compares instants.
Instants are modelled as integer seconds, a date contributing
`86400 * dayNumber` where `dayNumber` counts civil days from 1970-01-01
(the standard Gregorian days-from-civil computation, matching Go's
internal absolute-time ordering). -/

structure PDate where
  y : Nat
  m : Nat
  d : Nat
deriving DecidableEq, Repr

/-- Gregorian leap year, as Go `isLeap`. -/
def isLeap (y : Nat) : Bool :=
  y % 4 == 0 && (y % 100 != 0 || y % 400 == 0)

/-- Go `daysIn(m, year)`. -/
def daysInMonth (y m : Nat) : Nat :=
  if m = 2 then (if isLeap y then 29 else 28)
  else if m = 4 ∨ m = 6 ∨ m = 9 ∨ m = 11 then 30
  else 31

def isDigit (c : Char) : Bool :=
  decide (48 ≤ c.toNat ∧ c.toNat ≤ 57)

def digitVal (c : Char) : Nat := c.toNat - 48

/-- Go `time.Parse("2006-01-02", s)`, reduced to its success/failure and
the calendar fields. -/
def parseDate (s : String) : Option PDate :=
  match s.data with
  | [y1, y2, y3, y4, s1, m1, m2, s2, d1, d2] =>
    if isDigit y1 && isDigit y2 && isDigit y3 && isDigit y4 &&
       (s1 == '-') && isDigit m1 && isDigit m2 &&
       (s2 == '-') && isDigit d1 && isDigit d2 then
      let y := ((digitVal y1 * 10 + digitVal y2) * 10 + digitVal y3) * 10 + digitVal y4
      let m := digitVal m1 * 10 + digitVal m2
      let d := digitVal d1 * 10 + digitVal d2
      if 1 ≤ m ∧ m ≤ 12 ∧ 1 ≤ d ∧ d ≤ daysInMonth y m then some ⟨y, m, d⟩
      else none
    else none
  | _ => none

/-- Civil days from 1970-01-01 (Gregorian), the standard days-from-civil
computation; strictly increasing in calendar order, consecutive dates one
apart, exactly as Go's absolute-time day count. -/
def dayNumber (dt : PDate) : Int :=
  let y : Int := if dt.m ≤ 2 then (dt.y : Int) - 1 else (dt.y : Int)
  let era : Int := Int.fdiv y 400
  let yoe : Int := y - era * 400
  let mp : Int := Int.emod ((dt.m : Int) + 9) 12
  let doy : Int := Int.ediv (153 * mp + 2) 5 + (dt.d : Int) - 1
  let doe : Int := yoe * 365 + Int.ediv yoe 4 - Int.ediv yoe 100 + doy
  era * 146097 + doe - 719468

/-- The instant (in seconds) of a parsed date: its midnight, as Go
`time.Parse` yields midnight UTC. -/
def midnight (dt : PDate) : Int := 86400 * dayNumber dt

/-! ### The division table (Go `divisions`) and division selection -/

/-- A sequence of literal characters, e.g. the `U13` part of a pattern. -/
def lit (s : String) : Re :=
  s.data.foldr (fun c r => Re.seq (Re.chr c) r) Re.eps

/-- The pattern shape `p.*t` used by every branch of the division table:
a literal, then `.*`, then a final single-character expression. -/
def reSeg (p : String) (t : Re) : Re :=
  Re.seq (lit p) (Re.seq (Re.star Re.dot) t)

structure division_type where
  name : String
  nameRegex : Re
  swaps : String
  swapsRegex : Re
deriving DecidableEq, Repr

/-- The last table entry, `{"U18 B", "U18.*B", ..., "U15.*[A-B]|U18.*[A-B]"}`.
It is what Go's `for _, division = range divisions` loop leaves in
`division` when no `nameRegex` matches. -/
def dU18B : division_type :=
  ⟨"U18 B", reSeg "U18" (Re.chr 'B'), "U18 B -> U15 A-B, U18 A-B",
    Re.alt (reSeg "U15" (Re.rng 'A' 'B')) (reSeg "U18" (Re.rng 'A' 'B'))⟩

/-- The Go `divisions` table; each `nameRegex`/`swapsRegex` string pattern
is compiled to its `Re` form (`[X]` and `[X-Y]` are ranges, `|` is `alt`). -/
def divisions : List division_type := [
  -- U9
  ⟨"U9 A", reSeg "U9" (Re.chr 'A'), "U9 A -> U9 A-C", reSeg "U9" (Re.rng 'A' 'C')⟩,
  ⟨"U9 B", reSeg "U9" (Re.chr 'B'), "U9 B -> U9 A-C", reSeg "U9" (Re.rng 'A' 'C')⟩,
  ⟨"U9 C", reSeg "U9" (Re.chr 'C'), "U9 C -> U9 A-C", reSeg "U9" (Re.rng 'A' 'C')⟩,
  -- U11
  ⟨"U11 A", reSeg "U11" (Re.chr 'A'), "U11 A -> U11 A-C, U13 B-C",
    Re.alt (reSeg "U11" (Re.rng 'A' 'C')) (reSeg "U13" (Re.rng 'B' 'C'))⟩,
  ⟨"U11 B", reSeg "U11" (Re.chr 'B'), "U11 B -> U11 A-C, U13 B-C",
    Re.alt (reSeg "U11" (Re.rng 'A' 'C')) (reSeg "U13" (Re.rng 'B' 'C'))⟩,
  ⟨"U11 C", reSeg "U11" (Re.chr 'C'), "U11 C -> U11 A-C, U13 B-C",
    Re.alt (reSeg "U11" (Re.rng 'A' 'C')) (reSeg "U13" (Re.rng 'B' 'C'))⟩,
  -- U13
  ⟨"U13 A", reSeg "U13" (Re.chr 'A'), "U13 A -> U15 A-B",
    Re.alt (reSeg "U13" (Re.rng 'A' 'A')) (reSeg "U15" (Re.rng 'A' 'B'))⟩,
  ⟨"U13 B", reSeg "U13" (Re.chr 'B'), "U13 B -> U11 A-C, U13 B-C",
    Re.alt (reSeg "U13" (Re.rng 'B' 'C')) (reSeg "U11" (Re.rng 'A' 'C'))⟩,
  ⟨"U13 C", reSeg "U13" (Re.chr 'C'), "U13 C -> U11 A-C, U13 B-C",
    Re.alt (reSeg "U13" (Re.rng 'B' 'C')) (reSeg "U11" (Re.rng 'A' 'C'))⟩,
  -- U15
  ⟨"U15 A", reSeg "U15" (Re.chr 'A'), "U15 A -> U13 A, U15 A-B, U18 A-B",
    Re.alt (reSeg "U13" (Re.chr 'A'))
      (Re.alt (reSeg "U15" (Re.rng 'A' 'B')) (reSeg "U18" (Re.rng 'A' 'B')))⟩,
  ⟨"U15 B", reSeg "U15" (Re.chr 'B'), "U15 B -> U13 A, U15 A-B, U18 A-B",
    Re.alt (reSeg "U13" (Re.chr 'A'))
      (Re.alt (reSeg "U15" (Re.rng 'A' 'B')) (reSeg "U18" (Re.rng 'A' 'B')))⟩,
  -- U18
  ⟨"U18 A", reSeg "U18" (Re.chr 'A'), "U18 A -> U15 A-B, U18 A-B",
    Re.alt (reSeg "U15" (Re.rng 'A' 'B')) (reSeg "U18" (Re.rng 'A' 'B'))⟩,
  dU18B]

/-- The Go loop `for _, division = range divisions { if MatchString(...) break }`:
the first entry whose `nameRegex` matches the label wins; with no match the
loop runs out and leaves the last entry in `division`. -/
def selectDivision (lbl : String) : division_type :=
  (divisions.find? (fun dv => reContains dv.nameRegex lbl)).getD dU18B

/-! ### The resolution pipeline (Go `main`, latest revision) -/

/-- A CSV record: `division(0), gameId(1), date(2), time(3), venue(4),
homeTeam(5), awayTeam(6)`. -/
abbrev Row := List String

/-- Go `game[i]` (total; faithful whenever `i < game.length`, which Go
requires on pain of a panic). -/
def getF (g : Row) (i : Nat) : String := g.getD i ""

/-- Keep-condition of the first `slices.DeleteFunc`: date parses, is not
before the cutoff instant, and the division field matches the compiled
`swapsRegex`. -/
def keepGame (cutOff : Int) (re : Re) (g : Row) : Bool :=
  match parseDate (getF g 2) with
  | none => false
  | some d => !(decide (midnight d < cutOff)) && reContains re (getF g 0)

/-- The candidate universe: the schedule after the cutoff + compatibility
filter (`swap.games` after the first `slices.DeleteFunc`). -/
def candidateUniverse (games : List Row) (cutOff : Int) (re : Re) : List Row :=
  games.filter (keepGame cutOff re)

/-- One iteration's effect on `excludeDates`: append the game's date when
any of its fields equals the raw home or away string
(`slices.Contains(game, swap.home) || slices.Contains(game, swap.away)`). -/
def edStep (home away : String) (eds : List String) (g : Row) : List String :=
  if g.contains home || g.contains away then eds ++ [getF g 2] else eds

/-- One iteration's effect on `excludeTeams`: when the game is on the swap
date, `addUnique` its home and away team. -/
def etStep (date : String) (ets : List String) (g : Row) : List String :=
  if date == getF g 2 then addUnique (addUnique ets (getF g 5)) (getF g 6) else ets

/-- One iteration of the exclusion-building loop. -/
def exclStep (home away date : String) (acc : List String × List String) (g : Row) :
    List String × List String :=
  (edStep home away acc.1 g, etStep date acc.2 g)

/-- The exclusion-building loop over the (already filtered) game list. -/
def buildExcl (games : List Row) (home away date : String) : List String × List String :=
  games.foldl (exclStep home away date) ([], [])

/-- Drop-condition of the second `slices.DeleteFunc`: date in
`excludeDates`, or raw home or away team in `excludeTeams`. -/
def dropGame (eds ets : List String) (g : Row) : Bool :=
  eds.contains (getF g 2) || ets.contains (getF g 5) || ets.contains (getF g 6)

/-- The final filter over the candidate universe. -/
def finalFilter (games : List Row) (eds ets : List String) : List Row :=
  games.filter (fun g => !dropGame eds ets g)

/-- The data of `swap_t` at the end of a completed run. -/
structure swapOut where
  date : String
  home : String
  away : String
  excludeDates : List String
  excludeTeams : List String
  games : List Row
deriving DecidableEq, Repr

/-- Stages 2-4 of the pipeline: filter, build exclusions from the filtered
list, filter again. -/
def resolveCore (games : List Row) (date home away : String) (re : Re) (cutOff : Int) :
    swapOut :=
  let uni := candidateUniverse games cutOff re
  let ex := buildExcl uni home away date
  ⟨date, home, away, ex.1, ex.2, finalFilter uni ex.1 ex.2⟩

/-- Outcome of one run of `main`'s resolution logic: `fatalDate` is the
`log.Fatal` on an unparsable target date; `pastCutoff` is the early
`return` on a target date before the cutoff; `done` is a completed run. -/
inductive RunResult where
  | fatalDate : RunResult
  | pastCutoff : RunResult
  | done : swapOut → RunResult
deriving DecidableEq, Repr

/-- The resolution logic of Go `main`: find the first record whose gameId
field equals the requested id (if none is found the loop falls through with
zero-valued `division`, whose empty `swapsRegex` compiles to a regex
matching everything — modelled by `Re.eps` — and empty date/home/away);
select the division; parse the target date (`log.Fatal` on failure); stop
if the date is before the cutoff; otherwise run the pipeline. -/
def run (games : List Row) (gameId : String) (cutOff : Int) : RunResult :=
  match games.find? (fun g => getF g 1 == gameId) with
  | some g =>
    match parseDate (getF g 2) with
    | none => RunResult.fatalDate
    | some d =>
      if midnight d < cutOff then RunResult.pastCutoff
      else
        RunResult.done
          (resolveCore games (getF g 2) (getF g 5) (getF g 6)
            (selectDivision (getF g 0)).swapsRegex cutOff)
  | none => RunResult.done (resolveCore games "" "" "" Re.eps cutOff)

/-- The candidate list a run delivers (empty when the run stopped early). -/
def candidatesOf : RunResult → List Row
  | RunResult.fatalDate => []
  | RunResult.pastCutoff => []
  | RunResult.done sw => sw.games

/-- The `excludeDates` list a run delivers. -/
def edsOf : RunResult → List String
  | RunResult.fatalDate => []
  | RunResult.pastCutoff => []
  | RunResult.done sw => sw.excludeDates

/-- The `excludeTeams` list a run delivers. -/
def etsOf : RunResult → List String
  | RunResult.fatalDate => []
  | RunResult.pastCutoff => []
  | RunResult.done sw => sw.excludeTeams

/-! ### Helper lemmas -/

/-- With a cutoff instant that is not exactly a midnight (Go's
`time.Now().AddDate(0, 0, 10)` carries the clock time), being before the
cutoff is the same as not being on a strictly later calendar day. -/
theorem midnight_lt_iff {c : Int} (h : c % 86400 ≠ 0) (k : Int) :
    86400 * k < c ↔ k ≤ c / 86400 := by
  omega

/-- Membership in the candidate universe: in the schedule, date parses, not
before the cutoff, division compatible. -/
theorem mem_candidateUniverse {games : List Row} {c : Int} {re : Re} {g : Row} :
    g ∈ candidateUniverse games c re ↔
      g ∈ games ∧ ∃ d, parseDate (getF g 2) = some d ∧ ¬(midnight d < c) ∧
        reContains re (getF g 0) = true := by
  unfold candidateUniverse
  rw [List.mem_filter]
  apply and_congr_right
  intro _
  unfold keepGame
  cases hp : parseDate (getF g 2) with
  | none => simp
  | some d =>
    simp only [Bool.and_eq_true, Bool.not_eq_true', decide_eq_false_iff_not]
    constructor
    · rintro ⟨h1, h2⟩
      exact ⟨d, rfl, h1, h2⟩
    · rintro ⟨d', hd', h1, h2⟩
      injection hd' with hd'
      subst hd'
      exact ⟨h1, h2⟩

theorem contains_eq_false_iff (l : List String) (a : String) :
    (l.contains a = false) ↔ a ∉ l := by
  rw [← Bool.not_eq_true, not_iff_not]
  exact List.elem_iff

/-- Membership in the final candidate list. -/
theorem mem_finalFilter {U : List Row} {eds ets : List String} {g : Row} :
    g ∈ finalFilter U eds ets ↔
      g ∈ U ∧ getF g 2 ∉ eds ∧ getF g 5 ∉ ets ∧ getF g 6 ∉ ets := by
  unfold finalFilter
  rw [List.mem_filter]
  apply and_congr_right
  intro _
  rw [Bool.not_eq_true']
  unfold dropGame
  simp only [Bool.or_eq_false_iff]
  rw [contains_eq_false_iff, contains_eq_false_iff, contains_eq_false_iff, and_assoc]

theorem exclStep_foldl (home away date : String) :
    ∀ (games : List Row) (acc : List String × List String),
      games.foldl (exclStep home away date) acc =
        (games.foldl (edStep home away) acc.1, games.foldl (etStep date) acc.2) := by
  intro games
  induction games with
  | nil => intro acc; simp [List.foldl_nil]
  | cons g gs ih =>
    intro acc
    rw [List.foldl_cons, List.foldl_cons, List.foldl_cons, ih]
    rfl

/-- The two exclusion lists are independent folds. -/
theorem buildExcl_eq (games : List Row) (home away date : String) :
    buildExcl games home away date =
      (games.foldl (edStep home away) [], games.foldl (etStep date) []) :=
  exclStep_foldl home away date games ([], [])

/-- The `excludeDates` fold, in closed form: the dates (in order) of the
scanned games having the raw home or away string among their fields. -/
theorem edFold_eq (home away : String) :
    ∀ (games : List Row) (eds : List String),
      games.foldl (edStep home away) eds =
        eds ++ (games.filter (fun g => g.contains home || g.contains away)).map
          (fun g => getF g 2) := by
  intro games
  induction games with
  | nil => intro eds; simp
  | cons g gs ih =>
    intro eds
    rw [List.foldl_cons]
    cases hc : (g.contains home || g.contains away) with
    | false =>
      rw [show edStep home away eds g = eds by unfold edStep; rw [hc]; rfl, ih,
        List.filter_cons, if_neg (by rw [hc]; exact Bool.false_ne_true)]
    | true =>
      rw [show edStep home away eds g = eds ++ [getF g 2] by unfold edStep; rw [hc]; rfl,
        ih, List.filter_cons, if_pos hc, List.map_cons, List.append_assoc]
      rfl

/-- Membership in `excludeDates` in terms of the scanned game list. -/
theorem mem_excludeDates {games : List Row} {home away date s : String} :
    s ∈ (buildExcl games home away date).1 ↔
      ∃ g ∈ games, (home ∈ g ∨ away ∈ g) ∧ getF g 2 = s := by
  rw [buildExcl_eq]
  show s ∈ games.foldl (edStep home away) [] ↔ _
  rw [edFold_eq, List.nil_append]
  simp only [List.mem_map, List.mem_filter, Bool.or_eq_true]
  constructor
  · rintro ⟨g, ⟨hg, hcond⟩, hs⟩
    refine ⟨g, hg, ?_, hs⟩
    rcases hcond with h | h
    · exact Or.inl (List.elem_iff.mp h)
    · exact Or.inr (List.elem_iff.mp h)
  · rintro ⟨g, hg, hcond, hs⟩
    refine ⟨g, ⟨hg, ?_⟩, hs⟩
    rcases hcond with h | h
    · exact Or.inl (List.elem_iff.mpr h)
    · exact Or.inr (List.elem_iff.mpr h)

theorem upperStr_normalize (s : String) : upperStr (normalize s) = normalize s := by
  unfold upperStr normalize
  apply congrArg String.mk
  rw [show (String.mk ((cutBefore s.data).map upChar)).data
      = (cutBefore s.data).map upChar from rfl, List.map_map]
  apply List.map_congr_left
  intro c _
  exact upChar_idem c

theorem mem_addUnique {l : List String} (s : String) {v : String} (h : v ∈ l) :
    v ∈ addUnique l s := by
  unfold addUnique
  split
  · exact h
  · exact List.mem_append_left _ h

theorem addUnique_mem_cases {l : List String} {s v : String} (h : v ∈ addUnique l s) :
    v ∈ l ∨ v = normalize s := by
  unfold addUnique at h
  split at h
  · exact Or.inl h
  · rcases List.mem_append.mp h with h1 | h1
    · exact Or.inl h1
    · exact Or.inr (List.mem_singleton.mp h1)

theorem mem_addUnique_self {l : List String} (s : String)
    (hinv : ∀ v ∈ l, upperStr v = v) : normalize s ∈ addUnique l s := by
  unfold addUnique
  split
  · next h =>
    rcases List.any_eq_true.mp h with ⟨v, hv, hbeq⟩
    have he : upperStr v = normalize s := by
      exact eq_of_beq hbeq
    have hveq : v = normalize s := by
      rw [← hinv v hv]
      exact he
    exact hveq ▸ hv
  · exact List.mem_append_right _ (List.mem_singleton.mpr rfl)

theorem addUnique_inv {l : List String} {s : String}
    (hinv : ∀ v ∈ l, upperStr v = v) : ∀ v ∈ addUnique l s, upperStr v = v := by
  intro v hv
  rcases addUnique_mem_cases hv with h | h
  · exact hinv v h
  · rw [h]
    exact upperStr_normalize s

theorem etStep_sub {date : String} {ets : List String} {g : Row} :
    ∀ v ∈ ets, v ∈ etStep date ets g := by
  intro v hv
  unfold etStep
  split
  · exact mem_addUnique _ (mem_addUnique _ hv)
  · exact hv

theorem etStep_inv {date : String} {ets : List String} {g : Row}
    (hinv : ∀ v ∈ ets, upperStr v = v) : ∀ v ∈ etStep date ets g, upperStr v = v := by
  unfold etStep
  split
  · exact addUnique_inv (addUnique_inv hinv)
  · exact hinv

theorem etFold_sub (date : String) :
    ∀ (games : List Row) (ets : List String), ∀ v ∈ ets,
      v ∈ games.foldl (etStep date) ets := by
  intro games
  induction games with
  | nil => intro ets v hv; exact hv
  | cons g gs ih =>
    intro ets v hv
    rw [List.foldl_cons]
    exact ih _ v (etStep_sub v hv)

theorem etFold_inv (date : String) :
    ∀ (games : List Row) (ets : List String), (∀ v ∈ ets, upperStr v = v) →
      ∀ v ∈ games.foldl (etStep date) ets, upperStr v = v := by
  intro games
  induction games with
  | nil => intro ets hinv; exact hinv
  | cons g gs ih =>
    intro ets hinv
    rw [List.foldl_cons]
    exact ih _ (etStep_inv hinv)

/-- Any game scanned on the swap date contributes its normalized home and
away team names to `excludeTeams`. -/
theorem etFold_mem (date : String) :
    ∀ (games : List Row) (ets : List String) (g : Row), g ∈ games →
      date = getF g 2 → (∀ v ∈ ets, upperStr v = v) →
      normalize (getF g 5) ∈ games.foldl (etStep date) ets ∧
      normalize (getF g 6) ∈ games.foldl (etStep date) ets := by
  intro games
  induction games with
  | nil => intro ets g hg; exact absurd hg (List.not_mem_nil g)
  | cons g' gs ih =>
    intro ets g hg hdate hinv
    rcases List.mem_cons.mp hg with h | h
    · subst h
      rw [List.foldl_cons]
      have hstep : etStep date ets g = addUnique (addUnique ets (getF g 5)) (getF g 6) := by
        unfold etStep
        rw [if_pos (beq_iff_eq.mpr hdate)]
      constructor
      · apply etFold_sub
        rw [hstep]
        exact mem_addUnique _ (mem_addUnique_self _ hinv)
      · apply etFold_sub
        rw [hstep]
        exact mem_addUnique_self _ (addUnique_inv hinv)
    · rw [List.foldl_cons]
      exact ih (etStep date ets g') g h hdate (etStep_inv hinv)

/-- Membership carrier for `excludeTeams` of `buildExcl`. -/
theorem mem_excludeTeams {games : List Row} {home away date : String} {g : Row}
    (hg : g ∈ games) (hdate : date = getF g 2) :
    normalize (getF g 5) ∈ (buildExcl games home away date).2 ∧
    normalize (getF g 6) ∈ (buildExcl games home away date).2 := by
  rw [buildExcl_eq]
  exact etFold_mem date games [] g hg hdate (by intro v hv; exact absurd hv (List.not_mem_nil v))

/-- An in-bounds positional field of a record is one of its entries (in Go,
`slices.Contains(game, game[i])` is then true). -/
theorem getF_mem {g : Row} {i : Nat} (h : i < g.length) : getF g i ∈ g := by
  unfold getF
  induction g generalizing i with
  | nil => exact absurd h (by simp)
  | cons a l ih =>
    cases i with
    | zero => exact List.mem_cons_self a l
    | succ j =>
      exact List.mem_cons_of_mem a (ih (by simpa using h))

theorem resolveCore_games_eq (games : List Row) (dt home away : String) (re : Re) (c : Int) :
    (resolveCore games dt home away re c).games =
      finalFilter (candidateUniverse games c re)
        (buildExcl (candidateUniverse games c re) home away dt).1
        (buildExcl (candidateUniverse games c re) home away dt).2 := rfl

theorem resolveCore_eds_eq (games : List Row) (dt home away : String) (re : Re) (c : Int) :
    (resolveCore games dt home away re c).excludeDates =
      (buildExcl (candidateUniverse games c re) home away dt).1 := rfl

theorem resolveCore_ets_eq (games : List Row) (dt home away : String) (re : Re) (c : Int) :
    (resolveCore games dt home away re c).excludeTeams =
      (buildExcl (candidateUniverse games c re) home away dt).2 := rfl

/-- A found target with a parsed date at or past the cutoff completes the
pipeline. -/
theorem run_done {games : List Row} {gid : String} {c : Int} {g : Row} {d : PDate}
    (hfind : games.find? (fun r => getF r 1 == gid) = some g)
    (hparse : parseDate (getF g 2) = some d) (hcut : ¬(midnight d < c)) :
    run games gid c = RunResult.done
      (resolveCore games (getF g 2) (getF g 5) (getF g 6)
        (selectDivision (getF g 0)).swapsRegex c) := by
  unfold run
  rw [hfind]
  simp only [hparse]
  rw [if_neg hcut]

theorem accepts_alt_l {r1 r2 : Re} {w : List Char} (h : Accepts r1 w) :
    Accepts (Re.alt r1 r2) w := Or.inl h

theorem accepts_alt_r {r1 r2 : Re} {w : List Char} (h : Accepts r2 w) :
    Accepts (Re.alt r1 r2) w := Or.inr h

/-- Widening the final character of a `p.*c` pattern into a range
containing `c`. -/
theorem accepts_reSeg_widen (p : String) (c lo hi : Char)
    (hlo : lo.toNat ≤ c.toNat) (hhi : c.toNat ≤ hi.toNat) :
    ∀ w, Accepts (reSeg p (Re.chr c)) w → Accepts (reSeg p (Re.rng lo hi)) w := by
  rintro w ⟨u, v, huv, hu, x, y, hxy, hx, hy⟩
  exact ⟨u, v, huv, hu, x, y, hxy, hx, c, hy, hlo, hhi⟩

/-- Reflexivity of the division table: on labels matched by an entry's
`nameRegex`, that entry's `swapsRegex` also matches. -/
theorem division_name_imp_swaps :
    ∀ dv ∈ divisions, ∀ s : String,
      reContains dv.nameRegex s = true → reContains dv.swapsRegex s = true := by
  intro dv hdv s hs
  fin_cases hdv
  · exact reContains_mono (accepts_reSeg_widen _ _ _ _ (by decide) (by decide)) s hs
  · exact reContains_mono (accepts_reSeg_widen _ _ _ _ (by decide) (by decide)) s hs
  · exact reContains_mono (accepts_reSeg_widen _ _ _ _ (by decide) (by decide)) s hs
  · exact reContains_mono
      (fun w hw => accepts_alt_l (accepts_reSeg_widen _ _ _ _ (by decide) (by decide) w hw)) s hs
  · exact reContains_mono
      (fun w hw => accepts_alt_l (accepts_reSeg_widen _ _ _ _ (by decide) (by decide) w hw)) s hs
  · exact reContains_mono
      (fun w hw => accepts_alt_l (accepts_reSeg_widen _ _ _ _ (by decide) (by decide) w hw)) s hs
  · exact reContains_mono
      (fun w hw => accepts_alt_l (accepts_reSeg_widen _ _ _ _ (by decide) (by decide) w hw)) s hs
  · exact reContains_mono
      (fun w hw => accepts_alt_l (accepts_reSeg_widen _ _ _ _ (by decide) (by decide) w hw)) s hs
  · exact reContains_mono
      (fun w hw => accepts_alt_l (accepts_reSeg_widen _ _ _ _ (by decide) (by decide) w hw)) s hs
  · exact reContains_mono
      (fun w hw => accepts_alt_r (accepts_alt_l
        (accepts_reSeg_widen _ _ _ _ (by decide) (by decide) w hw))) s hs
  · exact reContains_mono
      (fun w hw => accepts_alt_r (accepts_alt_l
        (accepts_reSeg_widen _ _ _ _ (by decide) (by decide) w hw))) s hs
  · exact reContains_mono
      (fun w hw => accepts_alt_r (accepts_reSeg_widen _ _ _ _ (by decide) (by decide) w hw)) s hs
  · exact reContains_mono
      (fun w hw => accepts_alt_r (accepts_reSeg_widen _ _ _ _ (by decide) (by decide) w hw)) s hs

/-! ### Claims C8 and C9 -/

/-- C8: name normalization (truncate at the first `" ("`, upper-case) is
idempotent, and strips score suffixes:
`normalize "TEAM U15B1 (3)" = normalize "TEAM U15B1" = "TEAM U15B1"`. -/
theorem claim_C8 :
    (∀ x : String, normalize (normalize x) = normalize x) ∧
    normalize "TEAM U15B1 (3)" = normalize "TEAM U15B1" ∧
    normalize "TEAM U15B1" = "TEAM U15B1" :=
  ⟨normalize_idem, by decide, by decide⟩

/-- C9: division compatibility is reflexive — every division label accepted
by a registry entry's membership pattern (`nameRegex`) is also accepted by
that entry's compatibility pattern (`swapsRegex`). -/
theorem claim_C9 :
    ∀ dv ∈ divisions, ∀ s : String,
      reContains dv.nameRegex s = true → reContains dv.swapsRegex s = true :=
  division_name_imp_swaps

theorem claim_C9_witness :
    dU18B ∈ divisions ∧ reContains dU18B.nameRegex "U18 B" = true ∧
    reContains dU18B.swapsRegex "U18 B" = true :=
  ⟨by decide, by decide, claim_C9 dU18B (by decide) "U18 B" (by decide)⟩

/-! ### Claim C4: target date at or before the cutoff date stops the run -/

/-- C4: when the located target's date is not strictly after the cutoff's
calendar date (the cutoff instant, `now + 10 days`, not being an exact
midnight), resolution stops early with `PastCutoff` and delivers an empty
candidate list. -/
theorem claim_C4 (games : List Row) (gid : String) (c : Int) (g : Row) (d : PDate)
    (h0 : c % 86400 ≠ 0)
    (hfind : games.find? (fun r => getF r 1 == gid) = some g)
    (hparse : parseDate (getF g 2) = some d)
    (hle : dayNumber d ≤ c / 86400) :
    run games gid c = RunResult.pastCutoff ∧ candidatesOf (run games gid c) = [] := by
  have hlt : midnight d < c := (midnight_lt_iff h0 (dayNumber d)).mpr hle
  have hrun : run games gid c = RunResult.pastCutoff := by
    unfold run
    rw [hfind]
    simp only [hparse]
    rw [if_pos hlt]
  exact ⟨hrun, by rw [hrun]; rfl⟩

theorem claim_C4_witness :
    ((349200 : Int) % 86400 ≠ 0 ∧
      ([[("U13 A" : String), "G1", "1970-01-02", "18:00", "R1", "HA", "WA"]].find?
        (fun r => getF r 1 == "G1") = some ["U13 A", "G1", "1970-01-02", "18:00", "R1", "HA", "WA"]) ∧
      parseDate "1970-01-02" = some ⟨1970, 1, 2⟩ ∧
      dayNumber ⟨1970, 1, 2⟩ ≤ (349200 : Int) / 86400) ∧
    run [["U13 A", "G1", "1970-01-02", "18:00", "R1", "HA", "WA"]] "G1" 349200 =
      RunResult.pastCutoff ∧
    candidatesOf (run [["U13 A", "G1", "1970-01-02", "18:00", "R1", "HA", "WA"]] "G1" 349200) =
      [] :=
  ⟨⟨by decide, by decide, by decide, by decide⟩,
    claim_C4 [["U13 A", "G1", "1970-01-02", "18:00", "R1", "HA", "WA"]] "G1" 349200
      ["U13 A", "G1", "1970-01-02", "18:00", "R1", "HA", "WA"] ⟨1970, 1, 2⟩
      (by decide) (by decide) (by decide) (by decide)⟩

/-! ### Claim C5: unknown game id (corrected — no GameNotFound error exists) -/

/-- Counterexample to C5 as stated: with a game id matching no record, the
run does not fail; it completes and still computes a (here nonempty)
candidate list. -/
theorem claim_C5_cex :
    (∀ g ∈ [[("Division" : String), "GameID", "Date", "Time", "Arena", "Home Team", "Away Team"],
            ["U13 A", "G1", "1970-01-20", "18:00", "R1", "HA", "WA"]], getF g 1 ≠ "ZZZ") ∧
    candidatesOf
      (run [["Division", "GameID", "Date", "Time", "Arena", "Home Team", "Away Team"],
            ["U13 A", "G1", "1970-01-20", "18:00", "R1", "HA", "WA"]] "ZZZ" 349200) =
      [["U13 A", "G1", "1970-01-20", "18:00", "R1", "HA", "WA"]] := by
  constructor
  · decide
  · decide

/-- C5 (amended): an unknown game id is not detected.  The find loop falls
through, resolution continues with zero-valued target data (empty date,
home and away strings) and the zero-valued division, whose empty
`swapsRegex` compiles to a pattern matching every division label, and a
candidate list is still computed. -/
theorem claim_C5 (games : List Row) (gid : String) (c : Int)
    (hnone : games.find? (fun r => getF r 1 == gid) = none) :
    run games gid c = RunResult.done (resolveCore games "" "" "" Re.eps c) ∧
    ∀ s : String, reContains Re.eps s = true := by
  constructor
  · unfold run
    rw [hnone]
  · intro s
    rw [reContains_iff]
    exact ⟨[], [], s.data, rfl, rfl⟩

theorem claim_C5_witness :
    ([[("U13 A" : String), "G1", "1970-01-20", "18:00", "R1", "HA", "WA"]].find?
      (fun r => getF r 1 == "ZZZ") = none) ∧
    run [["U13 A", "G1", "1970-01-20", "18:00", "R1", "HA", "WA"]] "ZZZ" 349200 =
      RunResult.done
        (resolveCore [["U13 A", "G1", "1970-01-20", "18:00", "R1", "HA", "WA"]] "" "" ""
          Re.eps 349200) ∧
    ∀ s : String, reContains Re.eps s = true :=
  ⟨by decide,
    (claim_C5 _ "ZZZ" 349200 (by decide)).1,
    (claim_C5 [["U13 A", "G1", "1970-01-20", "18:00", "R1", "HA", "WA"]] "ZZZ" 349200
      (by decide)).2⟩

/-! ### Claim C6: division selection (corrected — no AmbiguousDivision error exists) -/

/-- Counterexample to C6 as stated: no registry entry's membership pattern
matches the division label `"SENIOR B"`, yet resolution does not fail with
a configuration error — it silently selects the last registry entry
(`U18 B`) and completes the run. -/
theorem claim_C6_cex :
    (divisions.all (fun dv => !reContains dv.nameRegex "SENIOR B")) = true ∧
    selectDivision "SENIOR B" = dU18B ∧
    run [["SENIOR B", "G1", "1970-01-20", "18:00", "R1", "HA", "WA"]] "G1" 349200 =
      RunResult.done
        { date := "1970-01-20", home := "HA", away := "WA",
          excludeDates := [], excludeTeams := [], games := [] } := by
  refine ⟨by decide, by decide, by decide⟩

/-- C6 (amended): division resolution scans the registry in order and keeps
the first entry whose membership pattern matches the target's division
label; when no entry matches, the loop leaves the last entry (`U18 B`)
selected.  No error is raised in either case. -/
theorem claim_C6 (lbl : String) :
    selectDivision lbl ∈ divisions ∧
    (∀ dv, divisions.find? (fun e => reContains e.nameRegex lbl) = some dv →
      selectDivision lbl = dv) ∧
    (divisions.find? (fun e => reContains e.nameRegex lbl) = none →
      selectDivision lbl = dU18B) := by
  refine ⟨?_, ?_, ?_⟩
  · unfold selectDivision
    cases hf : divisions.find? (fun e => reContains e.nameRegex lbl) with
    | none => exact (by decide : dU18B ∈ divisions)
    | some dv => exact List.mem_of_find?_eq_some hf
  · intro dv hf
    unfold selectDivision
    rw [hf]
    rfl
  · intro hf
    unfold selectDivision
    rw [hf]
    rfl

theorem claim_C6_witness :
    (divisions.find? (fun e => reContains e.nameRegex "U18 B") = some dU18B) ∧
    selectDivision "U18 B" = dU18B :=
  ⟨by decide, (claim_C6 "U18 B").2.1 dU18B (by decide)⟩

/-! ### Claim C1: scope of the exclusion scan (corrected — the scan runs
over the already filtered candidate universe, not the full schedule) -/

/-- Counterexample to C1 as stated: the record `G2` of the full schedule
carries the target's home team `"HA"` (raw and normalized alike) in a
division (`U9 C`) outside the compatible set of the target's `U13 A`, so
the claim requires its date `1970-01-25` in `excludeDates`; the code scans
only the filtered list, and the date is absent. -/
theorem claim_C1_cex :
    (["U9 C", "G2", "1970-01-25", "18:00", "R2", "HA", "xx"] : Row) ∈
      [[("U13 A" : String), "G1", "1970-01-20", "18:00", "R1", "HA", "WA"],
       ["U9 C", "G2", "1970-01-25", "18:00", "R2", "HA", "xx"]] ∧
    getF [("U13 A" : String), "G1", "1970-01-20", "18:00", "R1", "HA", "WA"] 5 = "HA" ∧
    "HA" ∈ (["U9 C", "G2", "1970-01-25", "18:00", "R2", "HA", "xx"] : Row) ∧
    getF ["U9 C", "G2", "1970-01-25", "18:00", "R2", "HA", "xx"] 2 = "1970-01-25" ∧
    "1970-01-25" ∉
      edsOf (run [["U13 A", "G1", "1970-01-20", "18:00", "R1", "HA", "WA"],
                  ["U9 C", "G2", "1970-01-25", "18:00", "R2", "HA", "xx"]] "G1" 349200) := by
  refine ⟨by decide, by decide, by decide, by decide, by decide⟩

/-- C1 (amended): the exclusion sets are computed from the
cutoff-and-compatibility-filtered candidate universe: every universe
record carrying the raw home or away string among its fields puts its date
into `excludeDates`, and every universe record on the target's date puts
its normalized teams into `excludeTeams`.  (Records removed by the cutoff
or compatibility filter are not scanned.) -/
theorem claim_C1 (games : List Row) (dt home away : String) (re : Re) (c : Int) :
    (∀ g ∈ candidateUniverse games c re, (home ∈ g ∨ away ∈ g) →
      getF g 2 ∈ (resolveCore games dt home away re c).excludeDates) ∧
    (∀ g ∈ candidateUniverse games c re, dt = getF g 2 →
      normalize (getF g 5) ∈ (resolveCore games dt home away re c).excludeTeams ∧
      normalize (getF g 6) ∈ (resolveCore games dt home away re c).excludeTeams) := by
  constructor
  · intro g hg hc
    rw [resolveCore_eds_eq]
    exact mem_excludeDates.mpr ⟨g, hg, hc, rfl⟩
  · intro g hg hd
    rw [resolveCore_ets_eq]
    exact mem_excludeTeams hg hd

theorem claim_C1_witness :
    ((["U13 A", "G1", "1970-01-20", "18:00", "R1", "HA", "WA"] : Row) ∈
      candidateUniverse [["U13 A", "G1", "1970-01-20", "18:00", "R1", "HA", "WA"]] 349200
        Re.eps ∧
     ("HA" ∈ (["U13 A", "G1", "1970-01-20", "18:00", "R1", "HA", "WA"] : Row) ∨
      "WA" ∈ (["U13 A", "G1", "1970-01-20", "18:00", "R1", "HA", "WA"] : Row))) ∧
    getF ["U13 A", "G1", "1970-01-20", "18:00", "R1", "HA", "WA"] 2 ∈
      (resolveCore [["U13 A", "G1", "1970-01-20", "18:00", "R1", "HA", "WA"]]
        "1970-01-20" "HA" "WA" Re.eps 349200).excludeDates :=
  ⟨⟨by decide, by decide⟩,
    (claim_C1 [["U13 A", "G1", "1970-01-20", "18:00", "R1", "HA", "WA"]]
      "1970-01-20" "HA" "WA" Re.eps 349200).1
      ["U13 A", "G1", "1970-01-20", "18:00", "R1", "HA", "WA"] (by decide) (by decide)⟩

/-! ### Claim C2: the final filter's guarantee (corrected — the membership
tests compare raw field values, not normalized ones) -/

/-- Counterexample to C2 as stated: the surviving candidate `G3` has home
team `"team a"`, whose normalized form `"TEAM A"` is in `excludeTeams`
(the normalized name of a team playing on the swap date); the final filter
compares the raw strings, so `G3` survives anyway. -/
theorem claim_C2_cex :
    (["U15 B", "G3", "1970-01-25", "18:00", "R3", "team a", "qq"] : Row) ∈
      candidatesOf
        (run [[("U13 A" : String), "G1", "1970-01-20", "18:00", "R1", "HA", "WA"],
              ["U15 A", "G2", "1970-01-20", "19:00", "R2", "team a", "zz"],
              ["U15 B", "G3", "1970-01-25", "18:00", "R3", "team a", "qq"]] "G1" 349200) ∧
    normalize (getF ["U15 B", "G3", "1970-01-25", "18:00", "R3", "team a", "qq"] 5) ∈
      etsOf
        (run [["U13 A", "G1", "1970-01-20", "18:00", "R1", "HA", "WA"],
              ["U15 A", "G2", "1970-01-20", "19:00", "R2", "team a", "zz"],
              ["U15 B", "G3", "1970-01-25", "18:00", "R3", "team a", "qq"]] "G1" 349200) := by
  refine ⟨by decide, by decide⟩

/-- C2 (amended): every record in the final candidate list of a completed
run has its date not in `excludeDates` and its raw home and away field
values not in `excludeTeams` (the comparison against the normalized
`excludeTeams` entries is raw string equality). -/
theorem claim_C2 (games : List Row) (gid : String) (c : Int) (sw : swapOut)
    (hrun : run games gid c = RunResult.done sw) :
    ∀ g ∈ sw.games, getF g 2 ∉ sw.excludeDates ∧ getF g 5 ∉ sw.excludeTeams ∧
      getF g 6 ∉ sw.excludeTeams := by
  have core : ∀ (dt home away : String) (re : Re),
      sw = resolveCore games dt home away re c →
      ∀ g ∈ sw.games, getF g 2 ∉ sw.excludeDates ∧ getF g 5 ∉ sw.excludeTeams ∧
        getF g 6 ∉ sw.excludeTeams := by
    rintro dt home away re rfl g hg
    rw [resolveCore_games_eq] at hg
    have h := mem_finalFilter.mp hg
    rw [resolveCore_eds_eq, resolveCore_ets_eq]
    exact ⟨h.2.1, h.2.2.1, h.2.2.2⟩
  cases hf : games.find? (fun r => getF r 1 == gid) with
  | none =>
    have hval : run games gid c = RunResult.done (resolveCore games "" "" "" Re.eps c) := by
      unfold run
      rw [hf]
    rw [hval] at hrun
    injection hrun with hsw
    exact core "" "" "" Re.eps hsw.symm
  | some g0 =>
    cases hp : parseDate (getF g0 2) with
    | none =>
      have hval : run games gid c = RunResult.fatalDate := by
        unfold run
        rw [hf]
        simp only [hp]
      rw [hval] at hrun
      cases hrun
    | some d =>
      by_cases hc : midnight d < c
      · have hval : run games gid c = RunResult.pastCutoff := by
          unfold run
          rw [hf]
          simp only [hp]
          rw [if_pos hc]
        rw [hval] at hrun
        cases hrun
      · have hval := run_done hf hp hc
        rw [hval] at hrun
        injection hrun with hsw
        exact core (getF g0 2) (getF g0 5) (getF g0 6)
          (selectDivision (getF g0 0)).swapsRegex hsw.symm

theorem claim_C2_witness :
    (run [[("U13 A" : String), "G1", "1970-01-20", "18:00", "R1", "HA", "WA"],
          ["U15 B", "G3", "1970-01-25", "18:00", "R3", "ta", "qq"]] "G1" 349200 =
      RunResult.done
        { date := "1970-01-20", home := "HA", away := "WA",
          excludeDates := ["1970-01-20"], excludeTeams := ["HA", "WA"],
          games := [["U15 B", "G3", "1970-01-25", "18:00", "R3", "ta", "qq"]] } ∧
     (["U15 B", "G3", "1970-01-25", "18:00", "R3", "ta", "qq"] : Row) ∈
       [[("U15 B" : String), "G3", "1970-01-25", "18:00", "R3", "ta", "qq"]]) ∧
    getF ["U15 B", "G3", "1970-01-25", "18:00", "R3", "ta", "qq"] 2 ∉
        (["1970-01-20"] : List String) ∧
    getF ["U15 B", "G3", "1970-01-25", "18:00", "R3", "ta", "qq"] 5 ∉
        (["HA", "WA"] : List String) ∧
    getF ["U15 B", "G3", "1970-01-25", "18:00", "R3", "ta", "qq"] 6 ∉
        (["HA", "WA"] : List String) :=
  ⟨⟨by decide, by decide⟩,
    claim_C2 [["U13 A", "G1", "1970-01-20", "18:00", "R1", "HA", "WA"],
              ["U15 B", "G3", "1970-01-25", "18:00", "R3", "ta", "qq"]] "G1" 349200
      { date := "1970-01-20", home := "HA", away := "WA",
        excludeDates := ["1970-01-20"], excludeTeams := ["HA", "WA"],
        games := [["U15 B", "G3", "1970-01-25", "18:00", "R3", "ta", "qq"]] }
      (by decide) ["U15 B", "G3", "1970-01-25", "18:00", "R3", "ta", "qq"] (by decide)⟩

/-! ### Claim C3: what makes a record contribute its date (corrected — the
code tests raw equality of the target's home/away string against every
field of the record, with no normalization) -/

/-- Counterexample to C3 as stated: the record `G4`'s normalized home and
away teams differ from the target's normalized teams, yet its date enters
`excludeDates` — because its venue field `"HA"` equals the target's raw
home string. -/
theorem claim_C3_cex :
    edsOf (run [[("U13 A" : String), "G1", "1970-01-20", "18:00", "R1", "HA", "WA"],
                ["U15 A", "G4", "1970-01-22", "18:00", "HA", "mm nn", "pp qq"]] "G1" 349200) =
      ["1970-01-20", "1970-01-22"] ∧
    getF ["U15 A", "G4", "1970-01-22", "18:00", "HA", "mm nn", "pp qq"] 2 = "1970-01-22" ∧
    getF ["U13 A", "G1", "1970-01-20", "18:00", "R1", "HA", "WA"] 2 ≠ "1970-01-22" ∧
    normalize (getF ["U15 A", "G4", "1970-01-22", "18:00", "HA", "mm nn", "pp qq"] 5) ≠
      normalize "HA" ∧
    normalize (getF ["U15 A", "G4", "1970-01-22", "18:00", "HA", "mm nn", "pp qq"] 5) ≠
      normalize "WA" ∧
    normalize (getF ["U15 A", "G4", "1970-01-22", "18:00", "HA", "mm nn", "pp qq"] 6) ≠
      normalize "HA" ∧
    normalize (getF ["U15 A", "G4", "1970-01-22", "18:00", "HA", "mm nn", "pp qq"] 6) ≠
      normalize "WA" := by
  refine ⟨by decide, by decide, by decide, by decide, by decide, by decide, by decide⟩

/-- C3 (amended): a scanned record contributes its date to `excludeDates`
exactly when some field of the record — any of its positions, not just the
home/away columns — equals, by raw string comparison, the target's raw home
string or the target's raw away string. -/
theorem claim_C3 (games : List Row) (dt home away : String) (re : Re) (c : Int) (s : String) :
    s ∈ (resolveCore games dt home away re c).excludeDates ↔
      ∃ g ∈ candidateUniverse games c re, (home ∈ g ∨ away ∈ g) ∧ getF g 2 = s := by
  rw [resolveCore_eds_eq]
  exact mem_excludeDates

/-! ### Claim C7: the cutoff + compatibility filter (corrected — the field
count is never examined at this stage) -/

/-- Counterexample to C7 as stated: a record with six fields (one short of
the CSV's seven) but a parseable future date in a compatible division is
retained by the filter, not silently dropped. -/
theorem claim_C7_cex :
    (["U13 B", "G6", "1970-01-22", "18:00", "R", "home only"] : Row).length = 6 ∧
    candidateUniverse [["U13 B", "G6", "1970-01-22", "18:00", "R", "home only"]] 349200
      (Re.alt (reSeg "U13" (Re.rng 'B' 'C')) (reSeg "U11" (Re.rng 'A' 'C'))) =
      [["U13 B", "G6", "1970-01-22", "18:00", "R", "home only"]] := by
  refine ⟨by decide, by decide⟩

/-- C7 (amended): for records whose date field exists (at least three
fields — shorter rows make the Go program panic), the filter retains
exactly those whose date parses under `YYYY-MM-DD`, falls on a calendar day
strictly after the cutoff's day (the cutoff instant not being an exact
midnight), and whose division field matches the compatibility pattern;
unparsable dates are dropped silently, and the field count plays no role. -/
theorem claim_C7 (games : List Row) (c : Int) (re : Re) (g : Row)
    (h0 : c % 86400 ≠ 0) (_hlen : 3 ≤ g.length) :
    g ∈ candidateUniverse games c re ↔
      g ∈ games ∧ ∃ d, parseDate (getF g 2) = some d ∧ c / 86400 < dayNumber d ∧
        reContains re (getF g 0) = true := by
  rw [mem_candidateUniverse]
  apply and_congr_right
  intro _
  apply exists_congr
  intro d
  apply and_congr_right
  intro _
  have hiff : ¬(86400 * dayNumber d < c) ↔ c / 86400 < dayNumber d :=
    (not_congr (midnight_lt_iff h0 (dayNumber d))).trans not_le
  exact and_congr_left fun _ => hiff

theorem claim_C7_witness :
    ((349200 : Int) % 86400 ≠ 0 ∧
      3 ≤ (["U13 A", "G1", "1970-01-20", "18:00", "R1", "HA", "WA"] : Row).length) ∧
    (["U13 A", "G1", "1970-01-20", "18:00", "R1", "HA", "WA"] : Row) ∈
      candidateUniverse [["U13 A", "G1", "1970-01-20", "18:00", "R1", "HA", "WA"]] 349200
        (Re.alt (reSeg "U13" (Re.rng 'A' 'A')) (reSeg "U15" (Re.rng 'A' 'B'))) :=
  ⟨⟨by decide, by decide⟩,
    (claim_C7 [["U13 A", "G1", "1970-01-20", "18:00", "R1", "HA", "WA"]] 349200
      (Re.alt (reSeg "U13" (Re.rng 'A' 'A')) (reSeg "U15" (Re.rng 'A' 'B')))
      ["U13 A", "G1", "1970-01-20", "18:00", "R1", "HA", "WA"]
      (by decide) (by decide)).mpr
      ⟨by decide, ⟨1970, 1, 20⟩, by decide, by decide, by decide⟩⟩

/-! ### Claim C10: the target's date is always excluded (corrected — this
holds only when some registry entry matches the target's division label;
with no match the fallback entry's pattern can reject the target's own
division, leaving its date unprotected) -/

/-- Counterexample to C10 as stated: the target's division label
`"SENIOR B"` matches no registry entry, the fallback `U18 B` entry's
compatibility pattern rejects it, so the target never enters the scanned
universe, its date never enters `excludeDates`, and a record on the
target's own date survives into the final candidate list. -/
theorem claim_C10_cex :
    ([[("SENIOR B" : String), "G1", "1970-01-20", "18:00", "R1", "ha", "aa"],
      ["U18 A", "G2", "1970-01-20", "19:00", "R2", "xx yy", "zz ww"]].find?
        (fun r => getF r 1 == "G1") =
      some ["SENIOR B", "G1", "1970-01-20", "18:00", "R1", "ha", "aa"]) ∧
    parseDate (getF ["SENIOR B", "G1", "1970-01-20", "18:00", "R1", "ha", "aa"] 2) =
      some ⟨1970, 1, 20⟩ ∧
    ¬(midnight ⟨1970, 1, 20⟩ < 349200) ∧
    candidatesOf
        (run [["SENIOR B", "G1", "1970-01-20", "18:00", "R1", "ha", "aa"],
              ["U18 A", "G2", "1970-01-20", "19:00", "R2", "xx yy", "zz ww"]] "G1" 349200) =
      [["U18 A", "G2", "1970-01-20", "19:00", "R2", "xx yy", "zz ww"]] ∧
    getF ["U18 A", "G2", "1970-01-20", "19:00", "R2", "xx yy", "zz ww"] 2 =
      getF ["SENIOR B", "G1", "1970-01-20", "18:00", "R1", "ha", "aa"] 2 := by
  refine ⟨by decide, by decide, by decide, by decide, by decide⟩

/-- C10 (amended): when the located target (a full row of at least seven
fields, here at least the home column) has a parseable date past the
cutoff and some registry entry's membership pattern matches its division
label, the target record never appears in the final candidate list, and no
record with the target's date does: the target is itself scanned (its own
division matches the selected entry's compatibility pattern, by
reflexivity), it carries its own home string, so its date reaches
`excludeDates` and the final filter removes every record on it. -/
theorem claim_C10 (games : List Row) (gid : String) (c : Int) (g : Row)
    (dv : division_type) (d : PDate)
    (hfind : games.find? (fun r => getF r 1 == gid) = some g)
    (hdv : divisions.find? (fun e => reContains e.nameRegex (getF g 0)) = some dv)
    (hlen : 6 ≤ g.length)
    (hparse : parseDate (getF g 2) = some d)
    (hcut : ¬(midnight d < c)) :
    g ∉ candidatesOf (run games gid c) ∧
    ∀ r ∈ candidatesOf (run games gid c), getF r 2 ≠ getF g 2 := by
  have hseldv : selectDivision (getF g 0) = dv := by
    unfold selectDivision
    rw [hdv]
    rfl
  have hval := run_done hfind hparse hcut
  rw [hseldv] at hval
  have hdvmem : dv ∈ divisions := List.mem_of_find?_eq_some hdv
  have hname : reContains dv.nameRegex (getF g 0) = true := by
    simpa using List.find?_some hdv
  have hswap := division_name_imp_swaps dv hdvmem _ hname
  have hmemg : g ∈ games := List.mem_of_find?_eq_some hfind
  have huni : g ∈ candidateUniverse games c dv.swapsRegex :=
    mem_candidateUniverse.mpr ⟨hmemg, d, hparse, hcut, hswap⟩
  have hdate_in : getF g 2 ∈
      (buildExcl (candidateUniverse games c dv.swapsRegex) (getF g 5) (getF g 6)
        (getF g 2)).1 :=
    mem_excludeDates.mpr ⟨g, huni, Or.inl (getF_mem (by omega)), rfl⟩
  have hall : ∀ r ∈ candidatesOf (run games gid c), getF r 2 ≠ getF g 2 := by
    intro r hr
    rw [hval] at hr
    have hr2 : r ∈ (resolveCore games (getF g 2) (getF g 5) (getF g 6) dv.swapsRegex c).games :=
      hr
    rw [resolveCore_games_eq] at hr2
    have h := mem_finalFilter.mp hr2
    intro heq
    exact h.2.1 (heq ▸ hdate_in)
  exact ⟨fun hgin => hall g hgin rfl, hall⟩

theorem claim_C10_witness :
    (([[("U13 A" : String), "G1", "1970-01-20", "18:00", "R1", "HA", "WA"],
       ["U15 A", "G5", "1970-01-20", "20:00", "R2", "o1", "o2"]].find?
        (fun r => getF r 1 == "G1") =
        some ["U13 A", "G1", "1970-01-20", "18:00", "R1", "HA", "WA"]) ∧
      (divisions.find?
        (fun e => reContains e.nameRegex
          (getF ["U13 A", "G1", "1970-01-20", "18:00", "R1", "HA", "WA"] 0)) =
        some ⟨"U13 A", reSeg "U13" (Re.chr 'A'), "U13 A -> U15 A-B",
          Re.alt (reSeg "U13" (Re.rng 'A' 'A')) (reSeg "U15" (Re.rng 'A' 'B'))⟩) ∧
      6 ≤ (["U13 A", "G1", "1970-01-20", "18:00", "R1", "HA", "WA"] : Row).length ∧
      parseDate (getF ["U13 A", "G1", "1970-01-20", "18:00", "R1", "HA", "WA"] 2) =
        some ⟨1970, 1, 20⟩ ∧
      ¬(midnight ⟨1970, 1, 20⟩ < 349200)) ∧
    (["U13 A", "G1", "1970-01-20", "18:00", "R1", "HA", "WA"] : Row) ∉
      candidatesOf
        (run [["U13 A", "G1", "1970-01-20", "18:00", "R1", "HA", "WA"],
              ["U15 A", "G5", "1970-01-20", "20:00", "R2", "o1", "o2"]] "G1" 349200) :=
  ⟨⟨by decide, by decide, by decide, by decide, by decide⟩,
    (claim_C10 [["U13 A", "G1", "1970-01-20", "18:00", "R1", "HA", "WA"],
                ["U15 A", "G5", "1970-01-20", "20:00", "R2", "o1", "o2"]] "G1" 349200
      ["U13 A", "G1", "1970-01-20", "18:00", "R1", "HA", "WA"]
      ⟨"U13 A", reSeg "U13" (Re.chr 'A'), "U13 A -> U15 A-B",
        Re.alt (reSeg "U13" (Re.rng 'A' 'A')) (reSeg "U15" (Re.rng 'A' 'B'))⟩
      ⟨1970, 1, 20⟩ (by decide) (by decide) (by decide) (by decide) (by decide)).1⟩

end GoSched
